import Mathlib

/-!
Verification development for the FranceLisRAG pipeline.

The Python sources are embedded shallowly:

* `2-extract_hl7_FranceLISLib.py` — `parse_hl7_file` scans the HL7 lines,
  pairs each `MFE` line with the immediately following `OM1` line, extracts
  sub-fields, filters the two sentinel categories and deduplicates on the
  composite key.  File reading is modelled by an `Option String` argument
  (`none` = the file is missing or unreadable, which the Python code turns
  into an empty result through its `except` handlers).
* `3-extract_to_milvus.py` — `standardize_label`, `MilvusVectorizer.vectorize`,
  `parse_hl7_to_milvus` and `rechercher_code_ana`.  The external pieces that
  the spec treats as black boxes are parameters: the sentence-transformer
  encoder is `encode : String → Except String (List ℝ)` (`Except.error`
  = the library raised), the `unidecode` transliteration is
  `uni : String → String`, and the synonym table loaded from `config.ini`
  is an ordered list of `(canonical, synonyms)` pairs, matching the
  insertion-ordered Python dict.

Machine floats of the Python/numpy code are modelled over `ℝ`.
-/

/-! ## Python string primitives

The Python string operations used by the sources all take single-character
separators (`split('|')`, `split('^')`, `split('\n')`), so they are embedded
as structural recursions over the character list of the string; this keeps
every definition kernel-evaluable on concrete inputs. -/

/-- Python `str.split(sep)` for a single-character separator, on the
character list: empty pieces are kept, `[] ↦ [[]]`. -/
def decoupeChar (sep : Char) : List Char → List (List Char)
  | [] => [[]]
  | c :: cs =>
    if c = sep then [] :: decoupeChar sep cs
    else
      match decoupeChar sep cs with
      | [] => [[c]]
      | t :: ts => (c :: t) :: ts

/-- Python `s.split(sep)` for a single-character separator. -/
def pySplit (sep : Char) (s : String) : List String :=
  (decoupeChar sep s.data).map String.mk

/-- Does the first list start with the second one? -/
def debuteAvec : List Char → List Char → Bool
  | _, [] => true
  | [], _ :: _ => false
  | c :: cs, p :: ps => c == p && debuteAvec cs ps

/-- Python `s.startswith(pre)`. -/
def pyStartsWith (s pre : String) : Bool :=
  debuteAvec s.data pre.data

/-- The characters Python `str.strip()` removes (the ASCII whitespace of
`string.whitespace`). -/
def estEspacePy (c : Char) : Bool :=
  c == ' ' || c == '\t' || c == '\n' || c == '\r' || c == '\x0b' || c == '\x0c'

/-- Python `s.strip()`: whitespace removed from both ends. -/
def pyStrip (s : String) : String :=
  String.mk (((s.data.dropWhile estEspacePy).reverse.dropWhile estEspacePy).reverse)

/-- Python `s[n:]`: drop the first `n` characters. -/
def pyDrop (s : String) (n : Nat) : String :=
  String.mk (s.data.drop n)

/-- Python `len(s)`: the number of characters. -/
def pyLen (s : String) : Nat :=
  s.data.length

/-! ## HL7 extractor (`2-extract_hl7_FranceLISLib.py`) -/

/-- `extraire_sous_champs` from the source: split a field on `^`. -/
def extraire_sous_champs (champ : String) : List String :=
  pySplit '^' champ

/-- The `sous_champs` dictionary stored inside each extracted record. -/
structure SousChamps where
  OM1_sous_champ1 : String
  OM1_sous_champ2 : String
  OM1_sous_champ3 : String
  MFE5_sous_champ2 : String
deriving DecidableEq

/-- One deduplicated record appended to `results` by `parse_hl7_file`. -/
structure ExtractionRecord where
  MFE_champ4 : String
  MFE_champ5 : String
  OM1_champ3 : String
  RES : String
  sous_champs : SousChamps
deriving DecidableEq

/-- The `max_lengths` dictionary of `parse_hl7_file`. -/
structure MaxLengths where
  OM1_sous_champ1 : Nat
  OM1_sous_champ2 : Nat
  OM1_sous_champ3 : Nat
  MFE5_sous_champ2 : Nat
deriving DecidableEq

/-- The duplicate statistics returned by `parse_hl7_file`. -/
structure DoublonStats where
  nb_doublons : Nat
  nb_uniques : Nat
deriving DecidableEq

/-- The mutable state of the scanning loop of `parse_hl7_file`:
`res_uniques` (a set, modelled as the list of keys added so far),
`results`, `nb_doublons` and `max_lengths`. -/
structure ParseState where
  res_uniques : List String
  results : List ExtractionRecord
  nb_doublons : Nat
  max_lengths : MaxLengths
deriving DecidableEq

/-- The state at the top of `parse_hl7_file`: empty set, empty results,
zero duplicates, all maxima zero. -/
def etatInitial : ParseState :=
  ⟨[], [], 0, ⟨0, 0, 0, 0⟩⟩

/-- One iteration of the `for i in range(len(lines))` loop of
`parse_hl7_file`, given the current line and the following line
(`suivante = none` when `i+1 = len(lines)`). -/
def parseStep (ligne : String) (suivante : Option String) (s : ParseState) :
    ParseState :=
  if pyStartsWith ligne "MFE" then
    let mfe_fields := pySplit '|' ligne
    if 5 ≤ mfe_fields.length then
      let champ5 := mfe_fields.getD 4 ""
      let mfe_champ5_parts := extraire_sous_champs champ5
      let mfe_champ5_sous_champ2 := mfe_champ5_parts.getD 1 ""
      let s1 : ParseState :=
        { s with max_lengths :=
            { s.max_lengths with
                MFE5_sous_champ2 :=
                  max s.max_lengths.MFE5_sous_champ2 (pyLen mfe_champ5_sous_champ2) } }
      match suivante with
      | none => s1
      | some ligne2 =>
        if pyStartsWith ligne2 "OM1" then
          let om1_fields := pySplit '|' ligne2
          if 3 ≤ om1_fields.length then
            let champ3_om1 := om1_fields.getD 2 ""
            let om1_champ3_parts := extraire_sous_champs champ3_om1
            let sous_champ1 := om1_champ3_parts.getD 0 ""
            let sous_champ2 := om1_champ3_parts.getD 1 ""
            let sous_champ3 := om1_champ3_parts.getD 2 ""
            if sous_champ3 ≠ "ADMINISTRATIF" ∧ sous_champ3 ≠ "CONCLUSION" then
              let m := s1.max_lengths
              let s2 : ParseState :=
                { s1 with max_lengths :=
                    { m with
                        OM1_sous_champ1 := max m.OM1_sous_champ1 (pyLen sous_champ1),
                        OM1_sous_champ2 := max m.OM1_sous_champ2 (pyLen sous_champ2),
                        OM1_sous_champ3 := max m.OM1_sous_champ3 (pyLen sous_champ3) } }
              let res_line :=
                sous_champ1 ++ "|" ++ sous_champ2 ++ "|" ++ sous_champ3 ++ "|" ++
                  mfe_champ5_sous_champ2
              if res_line ∈ s2.res_uniques then
                { s2 with nb_doublons := s2.nb_doublons + 1 }
              else
                { s2 with
                    res_uniques := res_line :: s2.res_uniques,
                    results := s2.results ++
                      [{ MFE_champ4 := mfe_fields.getD 3 "",
                         MFE_champ5 := champ5,
                         OM1_champ3 := champ3_om1,
                         RES := res_line,
                         sous_champs :=
                           ⟨sous_champ1, sous_champ2, sous_champ3,
                             mfe_champ5_sous_champ2⟩ }] }
            else s1
          else s1
        else s1
    else s
  else s

/-- The whole scanning loop: each line is visited as "current" once,
together with its successor when one exists. -/
def parseScan : List String → ParseState → ParseState
  | [], s => s
  | [a], s => parseStep a none s
  | a :: b :: reste, s => parseScan (b :: reste) (parseStep a (some b) s)

/-- The pure part of `parse_hl7_file`, from the list obtained by
`file_content.split('\n')` to the returned triple. -/
def parse_lines (lines : List String) :
    List ExtractionRecord × MaxLengths × DoublonStats :=
  let s := parseScan lines etatInitial
  (s.results, s.max_lengths, ⟨s.nb_doublons, s.results.length⟩)

/-- `parse_hl7_file`.  `contenu = none` models a file that could not be
read (`FileNotFoundError`, `PermissionError`, or any other reading error):
the handlers print a message and return `([], {}, zeros)`; the emptied
`max_lengths` dictionary is modelled by `none`. -/
def parse_hl7_file (contenu : Option String) :
    List ExtractionRecord × Option MaxLengths × DoublonStats :=
  match contenu with
  | none => ([], none, ⟨0, 0⟩)
  | some c =>
    let r := parse_lines (pySplit '\n' c)
    (r.1, some r.2.1, r.2.2)

/-! ## Characterisation of the extractor scan

`pairesDe` lists, for every index `i` of the line list, the pair
`(lines[i], lines[i+1]?)` the loop body of `parse_hl7_file` looks at.
`qualifiee` recomputes, for one such pair, the guards of the loop body:
it is `some` exactly for the qualifying `MFE`/`OM1` adjacent pairs
(well-formed on both sides, chapter sub-field not a sentinel). -/

/-- `(lines[i], lines[i+1]?)` for each `i`, in order. -/
def pairesDe : List String → List (String × Option String)
  | [] => []
  | [a] => [(a, none)]
  | a :: b :: reste => (a, some b) :: pairesDe (b :: reste)

/-- The data the loop body reads off a well-formed `MFE` line:
`(field 3, field 4, sub-field 1 of field 4)`; `none` when the line is not
a type-A line with at least 5 fields. -/
def mfeInfo (ligne : String) : Option (String × String × String) :=
  if pyStartsWith ligne "MFE" then
    let f := pySplit '|' ligne
    if 5 ≤ f.length then
      let champ5 := f.getD 4 ""
      some (f.getD 3 "", champ5, (extraire_sous_champs champ5).getD 1 "")
    else none
  else none

/-- Everything the loop body extracts from one qualifying pair. -/
structure PaireQualifiee where
  mfe_champ4 : String
  mfe_champ5 : String
  om1_champ3 : String
  sous_champ1 : String
  sous_champ2 : String
  sous_champ3 : String
  mfe5_sous_champ2 : String
deriving DecidableEq

/-- The guards of the loop body, recomputed on one `(line, next-line)` pair. -/
def qualifiee (ligne : String) (suivante : Option String) :
    Option PaireQualifiee :=
  match mfeInfo ligne with
  | none => none
  | some i =>
    match suivante with
    | none => none
    | some ligne2 =>
      if pyStartsWith ligne2 "OM1" then
        let f := pySplit '|' ligne2
        if 3 ≤ f.length then
          let champ3 := f.getD 2 ""
          let p := extraire_sous_champs champ3
          let s3 := p.getD 2 ""
          if s3 ≠ "ADMINISTRATIF" ∧ s3 ≠ "CONCLUSION" then
            some ⟨i.1, i.2.1, champ3, p.getD 0 "", p.getD 1 "", s3, i.2.2⟩
          else none
        else none
      else none

/-- The composite dedup key `code|label|chapter|definition-detail`
(`res_line` in the source). -/
def cle (q : PaireQualifiee) : String :=
  q.sous_champ1 ++ "|" ++ q.sous_champ2 ++ "|" ++ q.sous_champ3 ++ "|" ++
    q.mfe5_sous_champ2

/-- The record the loop appends for the first occurrence of a key. -/
def enregistrement (q : PaireQualifiee) : ExtractionRecord :=
  ⟨q.mfe_champ4, q.mfe_champ5, q.om1_champ3, cle q,
    ⟨q.sous_champ1, q.sous_champ2, q.sous_champ3, q.mfe5_sous_champ2⟩⟩

/-- All qualifying adjacent type-A/type-B pairs of the input, in order,
duplicates included. -/
def pairesQualifiees (lines : List String) : List PaireQualifiee :=
  (pairesDe lines).filterMap (fun p => qualifiee p.1 p.2)

/-- First-occurrence deduplication: keep a qualifying pair when its key has
not been seen, in scan order. -/
def dedoublonne (vues : List String) : List PaireQualifiee → List ExtractionRecord
  | [] => []
  | q :: qs =>
    if cle q ∈ vues then dedoublonne vues qs
    else enregistrement q :: dedoublonne (cle q :: vues) qs

/-- The definition-detail lengths of every well-formed type-A line
(whatever follows it). -/
def longueursMFE5 (lines : List String) : List Nat :=
  (pairesDe lines).filterMap (fun p => (mfeInfo p.1).map (fun i => pyLen i.2.2))

/-- Maximum of a list of naturals, `0` for the empty list. -/
def maxListe (l : List Nat) : Nat :=
  l.foldr max 0


/-- The effect of one loop iteration on the `MFE5` running maximum:
applied whenever the current line is a well-formed type-A line,
whatever follows it. -/
def etapeMFE : Option (String × String × String) → ParseState → ParseState
  | none, s => s
  | some i, s =>
    { s with max_lengths :=
        { s.max_lengths with
            MFE5_sous_champ2 := max s.max_lengths.MFE5_sous_champ2 (pyLen i.2.2) } }

/-- The `OM1` maxima update a qualifying pair performs (before the
dedup test, hence also for duplicates). -/
def majOM1 (q : PaireQualifiee) (m : MaxLengths) : MaxLengths :=
  { m with
      OM1_sous_champ1 := max m.OM1_sous_champ1 (pyLen q.sous_champ1),
      OM1_sous_champ2 := max m.OM1_sous_champ2 (pyLen q.sous_champ2),
      OM1_sous_champ3 := max m.OM1_sous_champ3 (pyLen q.sous_champ3) }

/-- The effect of one loop iteration on the rest of the state: for a
qualifying pair, update the three `OM1` maxima, then either count a
duplicate or append a fresh record. -/
def etapePaire : Option PaireQualifiee → ParseState → ParseState
  | none, s => s
  | some q, s =>
    let s2 : ParseState := { s with max_lengths := majOM1 q s.max_lengths }
    if cle q ∈ s2.res_uniques then { s2 with nb_doublons := s2.nb_doublons + 1 }
    else
      { s2 with
          res_uniques := cle q :: s2.res_uniques,
          results := s2.results ++ [enregistrement q] }

/-- One iteration of the scanning loop, decomposed: first the
unconditional `MFE5` maximum update of a well-formed type-A line, then
the qualifying-pair processing. -/
theorem parseStep_eq (a : String) (nb : Option String) (s : ParseState) :
    parseStep a nb s = etapePaire (qualifiee a nb) (etapeMFE (mfeInfo a) s) := by
  simp only [parseStep, qualifiee, mfeInfo]
  cases h1 : pyStartsWith a "MFE" with
  | false => simp [h1, etapeMFE, etapePaire]
  | true =>
    by_cases h2 : 5 ≤ (pySplit '|' a).length
    · simp only [h1, if_true, if_pos h2]
      cases nb with
      | none => simp [etapeMFE, etapePaire]
      | some b =>
        cases h4 : pyStartsWith b "OM1" with
        | false => simp [h4, etapeMFE, etapePaire]
        | true =>
          by_cases h5 : 3 ≤ (pySplit '|' b).length
          · simp only [h4, if_true, if_pos h5]
            by_cases h6 :
                (extraire_sous_champs ((pySplit '|' b).getD 2 "")).getD 2 "" ≠
                    "ADMINISTRATIF" ∧
                  (extraire_sous_champs ((pySplit '|' b).getD 2 "")).getD 2 "" ≠
                    "CONCLUSION"
            · simp only [if_pos h6, etapeMFE, etapePaire, majOM1, cle, enregistrement]
            · simp only [if_neg h6, etapeMFE, etapePaire]
          · simp [h4, h5, etapeMFE, etapePaire]
    · simp [h1, h2, etapeMFE, etapePaire]

/-- Folding the loop body over the `(line, next)` pairs. -/
def parcourt (L : List (String × Option String)) (s : ParseState) : ParseState :=
  L.foldl (fun t p => parseStep p.1 p.2 t) s

/-- The scan visits exactly the pairs of `pairesDe`, left to right. -/
theorem parseScan_eq (lines : List String) (s : ParseState) :
    parseScan lines s = parcourt (pairesDe lines) s := by
  induction lines, s using parseScan.induct with
  | case1 s => rfl
  | case2 a s => rfl
  | case3 a b reste s ih => simpa [parseScan, pairesDe, parcourt] using ih

theorem etapeMFE_contenu (i : Option (String × String × String)) (s : ParseState) :
    (etapeMFE i s).results = s.results ∧
      (etapeMFE i s).res_uniques = s.res_uniques ∧
      (etapeMFE i s).nb_doublons = s.nb_doublons ∧
      (etapeMFE i s).max_lengths.OM1_sous_champ1 = s.max_lengths.OM1_sous_champ1 ∧
      (etapeMFE i s).max_lengths.OM1_sous_champ2 = s.max_lengths.OM1_sous_champ2 ∧
      (etapeMFE i s).max_lengths.OM1_sous_champ3 = s.max_lengths.OM1_sous_champ3 := by
  cases i <;> simp [etapeMFE]

theorem etapeMFE_mfe5 (i : Option (String × String × String)) (s : ParseState) :
    (etapeMFE i s).max_lengths.MFE5_sous_champ2 =
      max s.max_lengths.MFE5_sous_champ2 (match i with
        | none => 0
        | some i => pyLen i.2.2) := by
  cases i <;> simp [etapeMFE]

theorem etapePaire_vue (q : PaireQualifiee) (s : ParseState)
    (h : cle q ∈ s.res_uniques) :
    etapePaire (some q) s =
      { s with nb_doublons := s.nb_doublons + 1,
               max_lengths := majOM1 q s.max_lengths } := by
  simp [etapePaire, h]

theorem etapePaire_neuve (q : PaireQualifiee) (s : ParseState)
    (h : cle q ∉ s.res_uniques) :
    etapePaire (some q) s =
      { s with res_uniques := cle q :: s.res_uniques,
               results := s.results ++ [enregistrement q],
               max_lengths := majOM1 q s.max_lengths } := by
  simp [etapePaire, h]

theorem maxListe_cons (x : Nat) (l : List Nat) :
    maxListe (x :: l) = max x (maxListe l) := rfl

theorem etapePaire_mfe5 (o : Option PaireQualifiee) (t : ParseState) :
    (etapePaire o t).max_lengths.MFE5_sous_champ2 =
      t.max_lengths.MFE5_sous_champ2 := by
  cases o with
  | none => rfl
  | some q => simp only [etapePaire, majOM1]; split <;> rfl

theorem etapePaire_om1 (o : Option PaireQualifiee) (t : ParseState) :
    (etapePaire o t).max_lengths.OM1_sous_champ1 =
        max t.max_lengths.OM1_sous_champ1 (match o with
          | none => 0
          | some q => pyLen q.sous_champ1) ∧
      (etapePaire o t).max_lengths.OM1_sous_champ2 =
        max t.max_lengths.OM1_sous_champ2 (match o with
          | none => 0
          | some q => pyLen q.sous_champ2) ∧
      (etapePaire o t).max_lengths.OM1_sous_champ3 =
        max t.max_lengths.OM1_sous_champ3 (match o with
          | none => 0
          | some q => pyLen q.sous_champ3) := by
  cases o with
  | none => simp [etapePaire]
  | some q => simp only [etapePaire, majOM1]; split <;> simp

/-- What the scan accumulates into `results`, `nb_doublons` and
`nb_uniques`, over an arbitrary starting state: the records are the
first-occurrence deduplication of the qualifying pairs, and every
qualifying pair contributes exactly one to
`nb_doublons + results.length`. -/
theorem parcourt_resultats (L : List (String × Option String)) :
    ∀ s : ParseState,
      (parcourt L s).results =
          s.results ++ dedoublonne s.res_uniques (L.filterMap fun p => qualifiee p.1 p.2) ∧
        (parcourt L s).nb_doublons + ((parcourt L s).results).length =
          s.nb_doublons + s.results.length +
            (L.filterMap fun p => qualifiee p.1 p.2).length := by
  induction L with
  | nil => intro s; simp [parcourt, dedoublonne]
  | cons p L ih =>
    intro s
    have hp : parcourt (p :: L) s = parcourt L (parseStep p.1 p.2 s) := rfl
    rw [hp, parseStep_eq]
    obtain ⟨h1, h2, h3, -, -, -⟩ := etapeMFE_contenu (mfeInfo p.1) s
    rcases hq : qualifiee p.1 p.2 with _ | q
    · simp only [etapePaire]
      obtain ⟨ihr, ihc⟩ := ih (etapeMFE (mfeInfo p.1) s)
      rw [List.filterMap_cons]
      simp only [hq]
      refine ⟨by rw [ihr, h1, h2], ?_⟩
      rw [ihc, h3, h1]
    · rw [List.filterMap_cons]
      simp only [hq]
      by_cases hv : cle q ∈ s.res_uniques
      · rw [etapePaire_vue q _ (by rw [h2]; exact hv)]
        obtain ⟨ihr, ihc⟩ :=
          ih { etapeMFE (mfeInfo p.1) s with
                nb_doublons := (etapeMFE (mfeInfo p.1) s).nb_doublons + 1,
                max_lengths := majOM1 q (etapeMFE (mfeInfo p.1) s).max_lengths }
        constructor
        · rw [ihr]
          simp only [dedoublonne, if_pos hv, h1, h2]
        · rw [ihc]
          simp [h1, h3]
          omega
      · rw [etapePaire_neuve q _ (by rw [h2]; exact hv)]
        obtain ⟨ihr, ihc⟩ :=
          ih { etapeMFE (mfeInfo p.1) s with
                res_uniques := cle q :: (etapeMFE (mfeInfo p.1) s).res_uniques,
                results := (etapeMFE (mfeInfo p.1) s).results ++ [enregistrement q],
                max_lengths := majOM1 q (etapeMFE (mfeInfo p.1) s).max_lengths }
        constructor
        · rw [ihr]
          simp only [dedoublonne, if_neg hv, h1, h2, List.append_assoc,
            List.singleton_append]
        · rw [ihc]
          simp [h1, h2, h3]
          omega

/-- What the scan accumulates into the `MFE5` running maximum: the maximum
definition-detail length over every well-formed type-A line, whatever
follows each one. -/
theorem parcourt_mfe5 (L : List (String × Option String)) :
    ∀ s : ParseState,
      (parcourt L s).max_lengths.MFE5_sous_champ2 =
        max s.max_lengths.MFE5_sous_champ2
          (maxListe (L.filterMap fun p => (mfeInfo p.1).map fun i => pyLen i.2.2)) := by
  induction L with
  | nil => intro s; simp [parcourt, maxListe]
  | cons p L ih =>
    intro s
    have hp : parcourt (p :: L) s = parcourt L (parseStep p.1 p.2 s) := rfl
    rw [hp, parseStep_eq, ih, etapePaire_mfe5, etapeMFE_mfe5]
    rcases hm : mfeInfo p.1 with _ | i
    · simp only [hm, List.filterMap_cons, Option.map_none']
      omega
    · simp only [hm, List.filterMap_cons, Option.map_some', maxListe_cons]
      omega

/-- What the scan accumulates into the three `OM1` running maxima: the
maxima of the sub-field lengths over every qualifying pair, duplicates
included. -/
theorem parcourt_om1 (L : List (String × Option String)) :
    ∀ s : ParseState,
      (parcourt L s).max_lengths.OM1_sous_champ1 =
          max s.max_lengths.OM1_sous_champ1
            (maxListe ((L.filterMap fun p => qualifiee p.1 p.2).map
              fun q => pyLen q.sous_champ1)) ∧
        (parcourt L s).max_lengths.OM1_sous_champ2 =
          max s.max_lengths.OM1_sous_champ2
            (maxListe ((L.filterMap fun p => qualifiee p.1 p.2).map
              fun q => pyLen q.sous_champ2)) ∧
        (parcourt L s).max_lengths.OM1_sous_champ3 =
          max s.max_lengths.OM1_sous_champ3
            (maxListe ((L.filterMap fun p => qualifiee p.1 p.2).map
              fun q => pyLen q.sous_champ3)) := by
  induction L with
  | nil => intro s; simp [parcourt, maxListe]
  | cons p L ih =>
    intro s
    have hp : parcourt (p :: L) s = parcourt L (parseStep p.1 p.2 s) := rfl
    rw [hp, parseStep_eq]
    obtain ⟨i1, i2, i3⟩ := ih (etapePaire (qualifiee p.1 p.2) (etapeMFE (mfeInfo p.1) s))
    obtain ⟨e1, e2, e3⟩ :=
      etapePaire_om1 (qualifiee p.1 p.2) (etapeMFE (mfeInfo p.1) s)
    obtain ⟨-, -, -, f1, f2, f3⟩ := etapeMFE_contenu (mfeInfo p.1) s
    rcases hq : qualifiee p.1 p.2 with _ | q
    · rw [hq] at i1 i2 i3 e1 e2 e3
      simp only [List.filterMap_cons, hq]
      refine ⟨?_, ?_, ?_⟩
      · rw [i1, e1, f1]; simp
      · rw [i2, e2, f2]; simp
      · rw [i3, e3, f3]; simp
    · rw [hq] at i1 i2 i3 e1 e2 e3
      simp only [List.filterMap_cons, hq, List.map_cons, maxListe_cons]
      refine ⟨?_, ?_, ?_⟩
      · rw [i1, e1, f1]; simp; omega
      · rw [i2, e2, f2]; simp; omega
      · rw [i3, e3, f3]; simp; omega

/-- A record produced by the deduplication comes from one of the
qualifying pairs. -/
theorem mem_dedoublonne {r : ExtractionRecord} (Q : List PaireQualifiee) :
    ∀ vues : List String, r ∈ dedoublonne vues Q → ∃ q ∈ Q, r = enregistrement q := by
  induction Q with
  | nil => intro vues h; simp [dedoublonne] at h
  | cons q Q ih =>
    intro vues h
    simp only [dedoublonne] at h
    split at h
    · obtain ⟨q', hq', he⟩ := ih _ h
      exact ⟨q', List.mem_cons_of_mem _ hq', he⟩
    · rcases List.mem_cons.mp h with he | h
      · exact ⟨q, List.mem_cons_self _ _, he⟩
      · obtain ⟨q', hq', he⟩ := ih _ h
        exact ⟨q', List.mem_cons_of_mem _ hq', he⟩

/-- A qualifying pair never carries a sentinel chapter sub-field. -/
theorem qualifiee_sentinelles {a : String} {nb : Option String}
    {q : PaireQualifiee} (h : qualifiee a nb = some q) :
    q.sous_champ3 ≠ "ADMINISTRATIF" ∧ q.sous_champ3 ≠ "CONCLUSION" := by
  unfold qualifiee mfeInfo at h
  simp only [ne_eq] at h
  repeat' split at h
  all_goals try (exfalso; exact Option.noConfusion h)
  injection h with h
  subst h
  rename_i hcond
  exact ⟨hcond.1, hcond.2⟩

/-! ## Claims about the extractor -/

/-- C1 (counterexample): on the two lines `MFE|1|2|3|X^Y` and
`OM1|1|2|P^Q^R`, the composite key of the produced record is not
`P|Q|R|Y`: field 2 of the `OM1` line is `2`, not `P^Q^R`. -/
theorem c1_contre_exemple :
    ¬ (parse_hl7_file (some "MFE|1|2|3|X^Y\nOM1|1|2|P^Q^R")).1.map
        (fun r => r.RES) = ["P|Q|R|Y"] := by
  decide

/-- C1 (amended): on the two lines `MFE|1|2|3|X^Y` and `OM1|1|2|P^Q^R`,
extraction produces exactly one record, whose composite dedup key is
`2|||Y` (code `2`, empty label and chapter, definition-detail `Y`),
because the chosen `OM1` field at index 2 is `2`. -/
theorem c1_cle_composite :
    (parse_hl7_file (some "MFE|1|2|3|X^Y\nOM1|1|2|P^Q^R")).1.map
        (fun r => r.RES) = ["2|||Y"] := by
  decide

/-- C4: after extraction, `nb_uniques + nb_doublons` equals the number of
qualifying adjacent type-A/type-B pairs, and the record list is exactly the
first-occurrence deduplication of those pairs in scan order (later
duplicates only increment the counter; they never overwrite or reorder
earlier records). -/
theorem c4_invariant_dedoublonnage (lines : List String) :
    (parse_lines lines).2.2.nb_uniques + (parse_lines lines).2.2.nb_doublons =
        (pairesQualifiees lines).length ∧
      (parse_lines lines).1 = dedoublonne [] (pairesQualifiees lines) := by
  obtain ⟨hr, hc⟩ := parcourt_resultats (pairesDe lines) etatInitial
  have h0 : parseScan lines etatInitial = parcourt (pairesDe lines) etatInitial :=
    parseScan_eq lines etatInitial
  constructor
  · show (parseScan lines etatInitial).results.length +
        (parseScan lines etatInitial).nb_doublons = _
    rw [h0]
    rw [show etatInitial.nb_doublons = 0 from rfl,
      show etatInitial.results = ([] : List ExtractionRecord) from rfl] at hc
    simp only [List.length_nil] at hc
    simp only [pairesQualifiees]
    omega
  · show (parseScan lines etatInitial).results = _
    rw [h0, hr]
    simp [etatInitial, pairesQualifiees]

/-- C5: no extracted record carries a sentinel chapter sub-field
(`ADMINISTRATIF` or `CONCLUSION`), and the spec's example pair with
chapter `ADMINISTRATIF` produces zero records. -/
theorem c5_exclusion_sentinelles :
    (∀ lines : List String, ∀ r ∈ (parse_lines lines).1,
        r.sous_champs.OM1_sous_champ3 ≠ "ADMINISTRATIF" ∧
          r.sous_champs.OM1_sous_champ3 ≠ "CONCLUSION") ∧
      (parse_lines ["MFE|...|...|...|A^B", "OM1|...|C^D^ADMINISTRATIF"]).1 = [] := by
  constructor
  · intro lines r hr
    obtain ⟨hres, -⟩ := parcourt_resultats (pairesDe lines) etatInitial
    have h0 : (parse_lines lines).1 =
        (parcourt (pairesDe lines) etatInitial).results := by
      show (parseScan lines etatInitial).results = _
      rw [parseScan_eq]
    rw [h0, hres] at hr
    simp only [etatInitial, List.nil_append] at hr
    obtain ⟨q, hq, rfl⟩ := mem_dedoublonne _ _ hr
    obtain ⟨p, -, hqual⟩ := List.mem_filterMap.mp hq
    exact qualifiee_sentinelles hqual
  · decide

/-- C10: the returned `max_lengths` are characterised as: for
`MFE5_sous_champ2`, the maximum definition-detail length over every
well-formed type-A line, whatever follows it — so it can be positive while
the record list is empty and both counters are zero, witnessed by the
single line `MFE|1|2|3|X^Y`; for the three `OM1` fields, the maxima over
all qualifying pairs, duplicates included (the update precedes the dedup
test). -/
theorem c10_maxima_longueurs :
    (∀ lines : List String,
        (parse_lines lines).2.1.MFE5_sous_champ2 = maxListe (longueursMFE5 lines) ∧
          (parse_lines lines).2.1.OM1_sous_champ1 =
            maxListe ((pairesQualifiees lines).map fun q => pyLen q.sous_champ1) ∧
          (parse_lines lines).2.1.OM1_sous_champ2 =
            maxListe ((pairesQualifiees lines).map fun q => pyLen q.sous_champ2) ∧
          (parse_lines lines).2.1.OM1_sous_champ3 =
            maxListe ((pairesQualifiees lines).map fun q => pyLen q.sous_champ3)) ∧
      (parse_lines ["MFE|1|2|3|X^Y"]).1 = [] ∧
        (parse_lines ["MFE|1|2|3|X^Y"]).2.2 = ⟨0, 0⟩ ∧
        0 < (parse_lines ["MFE|1|2|3|X^Y"]).2.1.MFE5_sous_champ2 := by
  refine ⟨fun lines => ?_, by decide, by decide, by decide⟩
  have h0 : parseScan lines etatInitial = parcourt (pairesDe lines) etatInitial :=
    parseScan_eq lines etatInitial
  have m5 := parcourt_mfe5 (pairesDe lines) etatInitial
  obtain ⟨o1, o2, o3⟩ := parcourt_om1 (pairesDe lines) etatInitial
  refine ⟨?_, ?_, ?_, ?_⟩
  · show (parseScan lines etatInitial).max_lengths.MFE5_sous_champ2 = _
    rw [h0, m5, show etatInitial.max_lengths.MFE5_sous_champ2 = 0 from rfl]
    simp [longueursMFE5]
  · show (parseScan lines etatInitial).max_lengths.OM1_sous_champ1 = _
    rw [h0, o1, show etatInitial.max_lengths.OM1_sous_champ1 = 0 from rfl]
    simp [pairesQualifiees]
  · show (parseScan lines etatInitial).max_lengths.OM1_sous_champ2 = _
    rw [h0, o2, show etatInitial.max_lengths.OM1_sous_champ2 = 0 from rfl]
    simp [pairesQualifiees]
  · show (parseScan lines etatInitial).max_lengths.OM1_sous_champ3 = _
    rw [h0, o3, show etatInitial.max_lengths.OM1_sous_champ3 = 0 from rfl]
    simp [pairesQualifiees]

/-! ## Label normalizer (`standardize_label` in `3-extract_to_milvus.py`)

The slug pipeline follows the source line by line: Python `str.lower()`,
the external `unidecode` (a parameter `uni`), then the four regular
expression rewrites and the final `strip('-')`, each as a structural
function on the character list. -/

/-- Python `str.lower()` (ASCII case folding, applied per character). -/
def pyLower (s : String) : String :=
  String.mk (s.data.map Char.toLower)

/-- `re.sub(r'\s+', '-', label)`: each maximal run of whitespace becomes
one hyphen.  The flag says whether the previous character was whitespace. -/
def espacesEnTirets : Bool → List Char → List Char
  | _, [] => []
  | prec, c :: cs =>
    if estEspacePy c then
      if prec then espacesEnTirets true cs else '-' :: espacesEnTirets true cs
    else c :: espacesEnTirets false cs

/-- `re.sub(r'[-_]', '-', label)`: underscores (and hyphens) become hyphens. -/
def tiretsUnifies (l : List Char) : List Char :=
  l.map fun c => if c = '-' || c = '_' then '-' else c

/-- A word character of the regex `\w` on the post-`unidecode` ASCII text:
alphanumeric or underscore. -/
def estCarMot (c : Char) : Bool :=
  c.isAlphanum || c == '_'

/-- `re.sub(r'[^\w-]', '', label)`: keep only word characters and hyphens. -/
def gardeMots (l : List Char) : List Char :=
  l.filter fun c => estCarMot c || c == '-'

/-- `re.sub(r'-+', '-', label)`: each run of hyphens becomes one. -/
def fusionneTirets : Bool → List Char → List Char
  | _, [] => []
  | prec, c :: cs =>
    if c = '-' then
      if prec then fusionneTirets true cs else '-' :: fusionneTirets true cs
    else c :: fusionneTirets false cs

/-- Python `label.strip('-')`: hyphens removed from both ends. -/
def rogneTirets (l : List Char) : List Char :=
  ((l.dropWhile (· = '-')).reverse.dropWhile (· = '-')).reverse

/-- The whole regex pipeline of `standardize_label` after `unidecode`. -/
def slugChars (l : List Char) : List Char :=
  rogneTirets (fusionneTirets false (gardeMots (tiretsUnifies
    (espacesEnTirets false l))))

/-- The slug of a label: `unidecode(label.lower())` then the regex
pipeline.  `uni` is the external `unidecode` transliteration. -/
def slugifie (uni : String → String) (label : String) : String :=
  String.mk (slugChars (uni (pyLower label)).data)

/-- `standardize_label` from the source: slugify, then return the first
canonical key of the synonym table whose synonym list contains the slug or
which equals the slug; otherwise the slug itself.  The table is the
insertion-ordered `(canonical, synonyms)` list read from `config.ini`. -/
def standardize_label (uni : String → String) (label : String)
    (medical_synonyms : List (String × List String)) : String :=
  match medical_synonyms.find? (fun cs =>
      cs.2.contains (slugifie uni label) || slugifie uni label == cs.1) with
  | some cs => cs.1
  | none => slugifie uni label

/-! ## Embedding adapter and catalog builder (`3-extract_to_milvus.py`) -/

/-- One entry of the Milvus JSON (`milvus_data["data"]` items). -/
structure MilvusEntry where
  Code_Ana : String
  Libelle_Ana : String
  Libelle_Llm : String
  Iata_code : String
  Chap_Ana : String
  vector : List ℝ

/-- The Milvus JSON skeleton (`collectionName` plus the data list). -/
structure MilvusData where
  collectionName : String
  data : List MilvusEntry

/-- `MilvusVectorizer.vectorize`: call the external encoder, then truncate
to the first 256 entries or right-pad with zeros to length 256.
`encode` is the external sentence-transformer model: `Except.error` models
a raised exception (including an uninitialised model). -/
def vectorize (encode : String → Except String (List ℝ)) (text : String) :
    Except String (List ℝ) :=
  match encode text with
  | Except.error e => Except.error e
  | Except.ok vector =>
    Except.ok
      (if 256 < vector.length then vector.take 256
       else if vector.length < 256 then
         vector ++ List.replicate (256 - vector.length) 0
       else vector)

/-- The `try/except` around the `vectorize` call in `parse_hl7_to_milvus`:
a failing embedding is replaced by the zero vector of length 256 and the
run continues. -/
def vectorOrZero (encode : String → Except String (List ℝ)) (text : String) :
    List ℝ :=
  match vectorize encode text with
  | Except.ok v => v
  | Except.error _ => List.replicate 256 0

/-- The body of the scanning loop of `parse_hl7_to_milvus` for one line:
`Except.ok none` when the line is skipped, `Except.ok (some entry)` when an
entry is appended, `Except.error` when the body raises — which happens for a
`RES` line whose payload has at least 2 but fewer than 4 fields, since the
code only guards `len(resline) >= 2` and then reads `resline[2]` and
`resline[3]` (an `IndexError` caught only by the whole-function handler). -/
def milvusLigne (encode : String → Except String (List ℝ))
    (uni : String → String) (synonymes : List (String × List String))
    (ligne : String) : Except String (Option MilvusEntry) :=
  if pyStartsWith ligne "RES" then
    if 2 ≤ (pySplit '|' (pyStrip (pyDrop ligne 4))).length then
      if 4 ≤ (pySplit '|' (pyStrip (pyDrop ligne 4))).length then
        Except.ok (some
          { Code_Ana := pyStrip ((pySplit '|' (pyStrip (pyDrop ligne 4))).getD 0 ""),
            Libelle_Ana := pyStrip ((pySplit '|' (pyStrip (pyDrop ligne 4))).getD 1 ""),
            Libelle_Llm := standardize_label uni
              (pyStrip ((pySplit '|' (pyStrip (pyDrop ligne 4))).getD 1 "")) synonymes,
            Iata_code := pyStrip ((pySplit '|' (pyStrip (pyDrop ligne 4))).getD 3 ""),
            Chap_Ana := pyStrip ((pySplit '|' (pyStrip (pyDrop ligne 4))).getD 2 ""),
            vector := vectorOrZero encode (standardize_label uni
              (pyStrip ((pySplit '|' (pyStrip (pyDrop ligne 4))).getD 1 "")) synonymes) })
      else Except.error "IndexError"
    else Except.ok none
  else Except.ok none

/-- The scanning loop of `parse_hl7_to_milvus` over all lines: entries in
line order; a raising body aborts the whole scan (the accumulated entries
are discarded by the function-level `except`). -/
def milvusScan (encode : String → Except String (List ℝ))
    (uni : String → String) (synonymes : List (String × List String)) :
    List String → Except String (List MilvusEntry)
  | [] => Except.ok []
  | l :: ls =>
    match milvusLigne encode uni synonymes l with
    | Except.error e => Except.error e
    | Except.ok o =>
      match milvusScan encode uni synonymes ls with
      | Except.error e => Except.error e
      | Except.ok reste =>
        Except.ok (match o with
          | none => reste
          | some e => e :: reste)

/-- `parse_hl7_to_milvus`: `contenu = none` models an unreadable file
(`FileNotFoundError`); any exception inside the scan is caught by the
function-level handler; both print a message and return `None`. -/
def parse_hl7_to_milvus (contenu : Option String)
    (encode : String → Except String (List ℝ)) (uni : String → String)
    (synonymes : List (String × List String)) : Option MilvusData :=
  match contenu with
  | none => none
  | some c =>
    match milvusScan encode uni synonymes (pySplit '\n' c) with
    | Except.error _ => none
    | Except.ok data => some { collectionName := "FRLISNAQ", data := data }

/-- A Milvus entry without its vector: what the scan produces
independently of the embedding function. -/
def sansVecteur (e : MilvusEntry) : String × String × String × String × String :=
  (e.Code_Ana, e.Libelle_Ana, e.Libelle_Llm, e.Iata_code, e.Chap_Ana)

/-- One line's outcome, up to the vector, does not depend on the encoder:
the guards never consult it and the vector is the only encoder-dependent
field. -/
theorem milvusLigne_independante (encode encode' : String → Except String (List ℝ))
    (uni : String → String) (synonymes : List (String × List String))
    (ligne : String) :
    (milvusLigne encode uni synonymes ligne).map (Option.map sansVecteur) =
      (milvusLigne encode' uni synonymes ligne).map (Option.map sansVecteur) := by
  unfold milvusLigne
  repeat' split
  all_goals rfl

/-- A successful `vectorize` yields exactly 256 entries: truncation when
the native vector is longer, right zero-padding when shorter. -/
theorem vectorize_longueur (encode : String → Except String (List ℝ))
    (texte : String) (v : List ℝ) (h : vectorize encode texte = Except.ok v) :
    v.length = 256 := by
  unfold vectorize at h
  rcases he : encode texte with e | w
  · rw [he] at h; cases h
  · rw [he] at h
    injection h with h
    subst h
    split
    · simp only [List.length_take]; omega
    · split
      · simp only [List.length_append, List.length_replicate]; omega
      · omega

/-- Length of the per-item vector, fallback included. -/
theorem vectorOrZero_longueur (encode : String → Except String (List ℝ))
    (texte : String) : (vectorOrZero encode texte).length = 256 := by
  unfold vectorOrZero
  rcases hv : vectorize encode texte with e | v
  · exact List.length_replicate 256 0
  · exact vectorize_longueur encode texte v hv

/-- The vector of a produced entry is `vectorOrZero` of its own
normalized label. -/
theorem milvusLigne_vecteur (encode : String → Except String (List ℝ))
    (uni : String → String) (synonymes : List (String × List String))
    (ligne : String) (e : MilvusEntry)
    (h : milvusLigne encode uni synonymes ligne = Except.ok (some e)) :
    e.vector = vectorOrZero encode e.Libelle_Llm := by
  unfold milvusLigne at h
  repeat' split at h
  all_goals try (exfalso; exact Except.noConfusion h)
  all_goals injection h with h
  all_goals try (exfalso; exact Option.noConfusion h)
  all_goals injection h with h
  all_goals subst h
  all_goals rfl

/-- Every entry the scan produces carries a vector of length 256. -/
theorem milvusScan_longueurs (encode : String → Except String (List ℝ))
    (uni : String → String) (synonymes : List (String × List String)) :
    ∀ (lines : List String) (entrees : List MilvusEntry),
      milvusScan encode uni synonymes lines = Except.ok entrees →
        ∀ e ∈ entrees, e.vector.length = 256 := by
  intro lines
  induction lines with
  | nil =>
    intro entrees h e he
    simp only [milvusScan] at h
    cases h
    simp at he
  | cons l ls ih =>
    intro entrees h e he
    simp only [milvusScan] at h
    rcases h1 : milvusLigne encode uni synonymes l with e1 | o
    · rw [h1] at h; cases h
    · rw [h1] at h
      rcases h2 : milvusScan encode uni synonymes ls with e2 | reste
      · rw [h2] at h; cases h
      · rw [h2] at h
        rcases o with _ | entree
        · cases h; exact ih reste h2 e he
        · cases h
          rcases List.mem_cons.mp he with rfl | he
          · rw [milvusLigne_vecteur encode uni synonymes l e h1,
              vectorOrZero_longueur]
          · exact ih reste h2 e he

/-- The scan's entry sequence, vectors excepted, does not depend on the
encoder: an embedding failure degrades its own item only and never stops
the loop. -/
theorem milvusScan_independant (encode encode' : String → Except String (List ℝ))
    (uni : String → String) (synonymes : List (String × List String)) :
    ∀ lines : List String,
      (milvusScan encode uni synonymes lines).map (List.map sansVecteur) =
        (milvusScan encode' uni synonymes lines).map (List.map sansVecteur) := by
  intro lines
  induction lines with
  | nil => rfl
  | cons l ls ih =>
    have hligne := milvusLigne_independante encode encode' uni synonymes l
    simp only [milvusScan]
    rcases h1 : milvusLigne encode uni synonymes l with e1 | o <;>
      rcases h1' : milvusLigne encode' uni synonymes l with e1' | o' <;>
      rw [h1, h1'] at hligne <;> simp only [Except.map] at hligne
    · cases hligne; rfl
    · cases hligne
    · cases hligne
    · rcases h2 : milvusScan encode uni synonymes ls with e2 | reste <;>
        rcases h2' : milvusScan encode' uni synonymes ls with e2' | reste' <;>
        rw [h2, h2'] at ih <;> simp only [Except.map] at ih
      · cases ih; rfl
      · cases ih
      · cases ih
      · injection hligne with hligne
        injection ih with ih
        rcases o with _ | e <;> rcases o' with _ | e'
        · simp only [Except.map]
          rw [ih]
        · cases hligne
        · cases hligne
        · injection hligne with hligne
          simp only [Except.map, List.map_cons]
          rw [hligne, ih]

/-! ## Claims about malformed lines, the adapter and unreadable input -/

/-- C2: the extractor indeed skips malformed lines silently (a 4-field
type-A line and a 2-field type-B line yield no record and zero counts),
but the catalog builder does not: on the single line `RES|A|B` the
`len(resline) >= 2` guard passes, `resline[2]` raises `IndexError`, the
function-level handler catches it, and the whole run returns `None`
instead of skipping the line. -/
theorem c2_ligne_malformee :
    (parse_lines ["MFE|1|2|3", "OM1|1|2"]).1 = [] ∧
      (parse_lines ["MFE|1|2|3", "OM1|1|2"]).2.2 = ⟨0, 0⟩ ∧
      (∀ (encode : String → Except String (List ℝ)) (uni : String → String)
          (synonymes : List (String × List String)),
        parse_hl7_to_milvus (some "RES|A|B") encode uni synonymes = none ∧
          parse_hl7_to_milvus (some "RES|A|B|C|D\nRES|A|B") encode uni synonymes =
            none) := by
  refine ⟨by decide, by decide, fun encode uni synonymes => ⟨rfl, rfl⟩⟩

/-- C9: a missing or unreadable input file makes both entry points report
and return an empty outcome instead of raising: the extractor returns no
record, an emptied `max_lengths` and zero counts, the catalog builder
returns `None`. -/
theorem c9_fichier_illisible :
    parse_hl7_file none = ([], none, ⟨0, 0⟩) ∧
      ∀ (encode : String → Except String (List ℝ)) (uni : String → String)
        (synonymes : List (String × List String)),
        parse_hl7_to_milvus none encode uni synonymes = none :=
  ⟨rfl, fun _ _ _ => rfl⟩

/-- C3: the adapter always yields vectors of length exactly 256 — a
successful embedding is truncated or right zero-padded to 256; a failing
embedding is replaced by the zero vector of length 256; every entry of a
produced catalog carries a length-256 vector; and the item sequence
(vectors excepted) is the same for any two encoders, so a failure never
stops the processing of the remaining items. -/
theorem c3_adaptateur_vectorisation :
    (∀ (encode : String → Except String (List ℝ)) (texte : String) (v : List ℝ),
        vectorize encode texte = Except.ok v → v.length = 256) ∧
      (∀ (encode : String → Except String (List ℝ)) (texte : String)
          (e : String), encode texte = Except.error e →
            vectorOrZero encode texte = List.replicate 256 0) ∧
      (∀ (contenu : Option String) (encode : String → Except String (List ℝ))
          (uni : String → String) (synonymes : List (String × List String))
          (md : MilvusData),
        parse_hl7_to_milvus contenu encode uni synonymes = some md →
          ∀ e ∈ md.data, e.vector.length = 256) ∧
      (∀ (encode encode' : String → Except String (List ℝ))
          (uni : String → String) (synonymes : List (String × List String))
          (lines : List String),
        (milvusScan encode uni synonymes lines).map (List.map sansVecteur) =
          (milvusScan encode' uni synonymes lines).map (List.map sansVecteur)) := by
  refine ⟨vectorize_longueur, ?_, ?_, milvusScan_independant⟩
  · intro encode texte e h
    unfold vectorOrZero vectorize
    rw [h]
  · intro contenu encode uni synonymes md h
    rcases contenu with _ | c
    · cases h
    · simp only [parse_hl7_to_milvus] at h
      rcases hs : milvusScan encode uni synonymes (pySplit '\n' c) with e | data
      · rw [hs] at h; cases h
      · rw [hs] at h
        cases h
        exact milvusScan_longueurs encode uni synonymes _ data hs

/-! ## Similarity search (`rechercher_code_ana` in `3-extract_to_milvus.py`)

`np.dot` and `np.linalg.norm` on the stored vectors are real dot product
and Euclidean norm; the query is embedded through `vectorize` exactly as in
the source. -/

/-- One search hit (`Code_Ana`, `Libelle_Ana`, `Similarite`). -/
structure SimilarityResult where
  Code_Ana : String
  Libelle_Ana : String
  Similarite : ℝ

/-- `np.dot` of two coordinate lists. -/
def produitScalaire : List ℝ → List ℝ → ℝ
  | a :: as_, b :: bs => a * b + produitScalaire as_ bs
  | _, _ => 0

/-- `np.linalg.norm`: the Euclidean norm. -/
noncomputable def normeEuclidienne (v : List ℝ) : ℝ :=
  Real.sqrt (produitScalaire v v)

/-- The cosine similarity the loop computes:
`np.dot(u, v) / (np.linalg.norm(u) * np.linalg.norm(v))` (in the reals,
division by a zero denominator yields `0`). -/
noncomputable def similariteCosinus (u v : List ℝ) : ℝ :=
  produitScalaire u v / (normeEuclidienne u * normeEuclidienne v)

/-- The `resultats` list the loop builds before sorting: one hit per
catalog entry whose similarity with the embedded query strictly exceeds
the `0.8` threshold, in catalog order. -/
noncomputable def candidats (vector_recherche : List ℝ) (milvus_data : MilvusData) :
    List SimilarityResult :=
  milvus_data.data.filterMap fun entry =>
    if 0.8 < similariteCosinus vector_recherche entry.vector then
      some ⟨entry.Code_Ana, entry.Libelle_Ana,
        similariteCosinus vector_recherche entry.vector⟩
    else none

/-- The order `sorted(..., key=lambda x: x['Similarite'], reverse=True)`
sorts by: descending similarity. -/
def ordreSimilarite (a b : SimilarityResult) : Prop :=
  b.Similarite ≤ a.Similarite

noncomputable instance : DecidableRel ordreSimilarite := fun a b =>
  Real.decidableLE b.Similarite a.Similarite

/-- The search loop over an already-embedded query vector: filter by the
threshold, then the stable descending sort. -/
noncomputable def rechercheParVecteur (vector_recherche : List ℝ)
    (milvus_data : MilvusData) : List SimilarityResult :=
  List.insertionSort ordreSimilarite (candidats vector_recherche milvus_data)

/-- `rechercher_code_ana`: embed the query label through `vectorize`
(a raising encoder propagates, as in the source, where the call is not
guarded), then filter and sort. -/
noncomputable def rechercher_code_ana (encode : String → Except String (List ℝ))
    (libelle_recherche : String) (milvus_data : MilvusData) :
    Except String (List SimilarityResult) :=
  match vectorize encode libelle_recherche with
  | Except.error e => Except.error e
  | Except.ok vector_recherche =>
    Except.ok (rechercheParVecteur vector_recherche milvus_data)

instance : IsTotal SimilarityResult ordreSimilarite :=
  ⟨fun a b => le_total b.Similarite a.Similarite⟩

instance : IsTrans SimilarityResult ordreSimilarite :=
  ⟨fun _ _ _ hab hbc => le_trans hbc hab⟩

/-- A hit of the pre-sort list exceeds the threshold. -/
theorem candidats_seuil (vq : List ℝ) (md : MilvusData) :
    ∀ r ∈ candidats vq md, (0.8 : ℝ) < r.Similarite := by
  intro r hr
  obtain ⟨entry, -, he⟩ := List.mem_filterMap.mp hr
  by_cases h : (0.8 : ℝ) < similariteCosinus vq entry.vector
  · rw [if_pos h] at he
    injection he with he
    subst he
    exact h
  · rw [if_neg h] at he
    cases he

/-- Inserting an element does not change the subsequence of hits at any
fixed similarity value: at most one of two compared elements can carry the
value, so the insertion never crosses an equal one. -/
theorem filtre_insertion (s : ℝ) (x : SimilarityResult) :
    ∀ l : List SimilarityResult,
      (List.orderedInsert ordreSimilarite x l).filter
          (fun r => decide (r.Similarite = s)) =
        ((x :: l).filter (fun r => decide (r.Similarite = s))) := by
  intro l
  induction l with
  | nil => rfl
  | cons y ys ih =>
    simp only [List.orderedInsert]
    split
    · rfl
    · rename_i hr
      simp only [List.filter_cons, ih]
      by_cases hx : x.Similarite = s <;> by_cases hy : y.Similarite = s
      · exact absurd (le_of_eq (hy.trans hx.symm)) hr
      · simp [hx, hy]
      · simp [hx, hy]
      · simp [hx, hy]

/-- The sort is stable: hits of one similarity value keep their relative
(catalog) order. -/
theorem filtre_insertionSort (s : ℝ) :
    ∀ l : List SimilarityResult,
      (List.insertionSort ordreSimilarite l).filter
          (fun r => decide (r.Similarite = s)) =
        l.filter (fun r => decide (r.Similarite = s)) := by
  intro l
  induction l with
  | nil => rfl
  | cons x xs ih =>
    simp only [List.insertionSort, filtre_insertion, List.filter_cons, ih]

/-- C6: the search returns exactly the catalog entries whose cosine
similarity with the embedded query strictly exceeds the `0.8` threshold;
the result is sorted by descending similarity; it is a permutation of the
threshold hits in catalog order, and ties (equal scores) keep their
catalog order (stability of the sort). -/
theorem c6_recherche_ordre_seuil (vq : List ℝ) (md : MilvusData) :
    (∀ r ∈ rechercheParVecteur vq md, (0.8 : ℝ) < r.Similarite) ∧
      (rechercheParVecteur vq md).Sorted ordreSimilarite ∧
      List.Perm (rechercheParVecteur vq md) (candidats vq md) ∧
      ∀ s : ℝ,
        (rechercheParVecteur vq md).filter (fun r => decide (r.Similarite = s)) =
          (candidats vq md).filter (fun r => decide (r.Similarite = s)) := by
  refine ⟨?_, ?_, ?_, ?_⟩
  · intro r hr
    exact candidats_seuil vq md r ((List.mem_insertionSort ordreSimilarite).mp hr)
  · exact List.sorted_insertionSort ordreSimilarite (candidats vq md)
  · exact List.perm_insertionSort ordreSimilarite (candidats vq md)
  · intro s
    exact filtre_insertionSort s (candidats vq md)

/-- C7: when the embedded query vector or the stored vector of a catalog
entry has magnitude zero, the computed cosine similarity is `0` (the
division by the zero product of the norms), so under the default `0.8`
threshold the entry is excluded: the search result is the same as on the
catalog without that entry. -/
theorem c7_vecteur_nul_exclu (vq : List ℝ) (e : MilvusEntry) (nom : String)
    (pre post : List MilvusEntry)
    (h : normeEuclidienne vq = 0 ∨ normeEuclidienne e.vector = 0) :
    similariteCosinus vq e.vector = 0 ∧
      rechercheParVecteur vq ⟨nom, pre ++ e :: post⟩ =
        rechercheParVecteur vq ⟨nom, pre ++ post⟩ := by
  have hsim : similariteCosinus vq e.vector = 0 := by
    unfold similariteCosinus
    rcases h with h | h <;> rw [h] <;> simp
  refine ⟨hsim, ?_⟩
  unfold rechercheParVecteur candidats
  simp only [List.filterMap_append, List.filterMap_cons, hsim]
  rw [if_neg (by norm_num : ¬ (0.8 : ℝ) < 0)]

/-- C7 at a concrete input: the empty query vector and an entry with an
empty stored vector. -/
theorem c7_vecteur_nul_exclu_witness :
    (normeEuclidienne ([] : List ℝ) = 0 ∨
        normeEuclidienne (MilvusEntry.mk "c" "l" "" "" "" []).vector = 0) ∧
      similariteCosinus ([] : List ℝ) (MilvusEntry.mk "c" "l" "" "" "" []).vector = 0 ∧
        rechercheParVecteur []
            ⟨"FRLISNAQ", [] ++ MilvusEntry.mk "c" "l" "" "" "" [] :: []⟩ =
          rechercheParVecteur [] ⟨"FRLISNAQ", [] ++ []⟩ :=
  ⟨Or.inl (by simp [normeEuclidienne, produitScalaire]),
    c7_vecteur_nul_exclu [] (MilvusEntry.mk "c" "l" "" "" "" []) "FRLISNAQ" [] []
      (Or.inl (by simp [normeEuclidienne, produitScalaire]))⟩

/-! ## Idempotence machinery for the normalizer -/

theorem toNat_ofNat_valide {n : Nat} (h : n.isValidChar) :
    (Char.ofNat n).toNat = n := by
  unfold Char.ofNat
  rw [dif_pos h]
  rfl

/-- ASCII lowercase folding is idempotent. -/
theorem toLower_toLower (c : Char) :
    Char.toLower (Char.toLower c) = Char.toLower c := by
  unfold Char.toLower
  by_cases h : c.toNat ≥ 65 ∧ c.toNat ≤ 90
  · rw [if_pos h]
    have hv : (c.toNat + 32).isValidChar := Or.inl (by omega)
    have ht : (Char.ofNat (c.toNat + 32)).toNat = c.toNat + 32 :=
      toNat_ofNat_valide hv
    rw [ht, if_neg (by omega)]
  · rw [if_neg h, if_neg h]

theorem toLower_tiret : Char.toLower '-' = '-' := by decide

/-- The head of a `dropWhile` result fails the predicate. -/
theorem head?_dropWhile {p : Char → Bool} :
    ∀ l : List Char, ∀ c, (l.dropWhile p).head? = some c → p c = false := by
  intro l
  induction l with
  | nil => intro c h; cases h
  | cons a as ih =>
    intro c h
    by_cases hp : p a
    · rw [List.dropWhile_cons_of_pos hp] at h
      exact ih c h
    · rw [List.dropWhile_cons_of_neg hp] at h
      cases h
      exact eq_false_of_ne_true hp

/-- No double hyphen, the invariant the hyphen-collapsing stage creates. -/
def pasDeuxTirets (a b : Char) : Prop :=
  ¬(a = '-' ∧ b = '-')

/-- Characters of the whitespace stage: from the input and not whitespace,
or an inserted hyphen. -/
theorem mem_espacesEnTirets {c : Char} :
    ∀ (b : Bool) (l : List Char), c ∈ espacesEnTirets b l →
      (c ∈ l ∧ estEspacePy c = false) ∨ c = '-' := by
  intro b l
  induction l generalizing b with
  | nil => intro h; cases h
  | cons a as ih =>
    intro h
    simp only [espacesEnTirets] at h
    by_cases ha : estEspacePy a
    · rw [if_pos ha] at h
      split at h
      · rcases ih _ h with ⟨h1, h2⟩ | h1
        · exact Or.inl ⟨List.mem_cons_of_mem _ h1, h2⟩
        · exact Or.inr h1
      · rcases List.mem_cons.mp h with rfl | h
        · exact Or.inr rfl
        · rcases ih _ h with ⟨h1, h2⟩ | h1
          · exact Or.inl ⟨List.mem_cons_of_mem _ h1, h2⟩
          · exact Or.inr h1
    · rw [if_neg ha] at h
      rcases List.mem_cons.mp h with rfl | h
      · exact Or.inl ⟨List.mem_cons_self _ _, eq_false_of_ne_true ha⟩
      · rcases ih _ h with ⟨h1, h2⟩ | h1
        · exact Or.inl ⟨List.mem_cons_of_mem _ h1, h2⟩
        · exact Or.inr h1

/-- Characters of the underscore stage: from the input and not an
underscore, or a hyphen. -/
theorem mem_tiretsUnifies {c : Char} (l : List Char)
    (h : c ∈ tiretsUnifies l) : (c ∈ l ∧ c ≠ '_') ∨ c = '-' := by
  obtain ⟨a, ha, rfl⟩ := List.mem_map.mp h
  by_cases h1 : a = '-' ∨ a = '_'
  · right
    have : (a = '-' || a = '_') = true := by
      rcases h1 with h1 | h1 <;> simp [h1]
    simp [this]
  · left
    push_neg at h1
    have : (a = '-' || a = '_') = false := by
      simp [h1.1, h1.2]
    simp only [this, Bool.false_eq_true, if_false]
    exact ⟨ha, h1.2⟩

/-- The filtering stage keeps only characters of the input that satisfy
the keep predicate. -/
theorem mem_gardeMots {c : Char} (l : List Char) (h : c ∈ gardeMots l) :
    c ∈ l ∧ (estCarMot c || c == '-') = true := by
  unfold gardeMots at h
  rw [List.mem_filter] at h
  exact h

/-- The collapsing stage only drops characters. -/
theorem mem_fusionneTirets {c : Char} :
    ∀ (b : Bool) (l : List Char), c ∈ fusionneTirets b l → c ∈ l := by
  intro b l
  induction l generalizing b with
  | nil => intro h; cases h
  | cons a as ih =>
    intro h
    simp only [fusionneTirets] at h
    by_cases ha : a = '-'
    · rw [if_pos ha] at h
      split at h
      · exact List.mem_cons_of_mem _ (ih _ h)
      · rcases List.mem_cons.mp h with rfl | h
        · rw [ha]; exact List.mem_cons_self _ _
        · exact List.mem_cons_of_mem _ (ih _ h)
    · rw [if_neg ha] at h
      rcases List.mem_cons.mp h with rfl | h
      · exact List.mem_cons_self _ _
      · exact List.mem_cons_of_mem _ (ih _ h)

/-- The trimming stage only drops characters. -/
theorem mem_rogneTirets {c : Char} (l : List Char) (h : c ∈ rogneTirets l) :
    c ∈ l := by
  unfold rogneTirets at h
  rw [List.mem_reverse] at h
  have h1 := List.dropWhile_sublist (l := ((l.dropWhile (· = '-')).reverse))
    (p := (· = '-'))
  have h2 := h1.mem h
  rw [List.mem_reverse] at h2
  exact (List.dropWhile_sublist _).mem h2

/-- On whitespace-free input, the whitespace stage is the identity. -/
theorem espacesEnTirets_id (l : List Char)
    (h : ∀ c ∈ l, estEspacePy c = false) :
    ∀ b : Bool, espacesEnTirets b l = l := by
  induction l with
  | nil => intro b; rfl
  | cons a as ih =>
    intro b
    have ha : estEspacePy a = false := h a (List.mem_cons_self _ _)
    simp only [espacesEnTirets, ha, Bool.false_eq_true, if_false]
    rw [ih fun c hc => h c (List.mem_cons_of_mem _ hc)]

/-- On underscore-free input, the underscore stage is the identity. -/
theorem tiretsUnifies_id (l : List Char) (h : ∀ c ∈ l, c ≠ '_') :
    tiretsUnifies l = l := by
  unfold tiretsUnifies
  rw [List.map_congr_left, List.map_id]
  intro a ha
  by_cases h1 : a = '-'
  · simp [h1]
  · simp [h1, h a ha]

/-- On input whose characters all satisfy the keep predicate, the
filtering stage is the identity. -/
theorem gardeMots_id (l : List Char)
    (h : ∀ c ∈ l, (estCarMot c || c == '-') = true) : gardeMots l = l :=
  List.filter_eq_self.mpr h

/-- After the collapsing stage started on a hyphen, the output cannot
start with another hyphen. -/
theorem head?_fusionneTirets_vrai :
    ∀ (l : List Char) (c : Char), (fusionneTirets true l).head? = some c →
      c ≠ '-' := by
  intro l
  induction l with
  | nil => intro c h; cases h
  | cons a as ih =>
    intro c h
    by_cases ha : a = '-'
    · simp only [fusionneTirets, if_pos ha, if_pos rfl] at h
      exact ih c h
    · simp only [fusionneTirets, if_neg ha] at h
      cases h
      exact ha

/-- The collapsing stage leaves no two adjacent hyphens. -/
theorem chain'_fusionneTirets :
    ∀ (b : Bool) (l : List Char), (fusionneTirets b l).Chain' pasDeuxTirets := by
  intro b l
  induction l generalizing b with
  | nil => exact List.chain'_nil
  | cons a as ih =>
    by_cases ha : a = '-'
    · rcases b with _ | _
      · simp only [fusionneTirets, if_pos ha, Bool.false_eq_true, if_false]
        refine List.chain'_cons'.mpr ⟨?_, ih true⟩
        intro y hy
        rintro ⟨-, hy2⟩
        exact head?_fusionneTirets_vrai as y hy hy2
      · simp only [fusionneTirets, if_pos ha, if_pos rfl]
        exact ih true
    · simp only [fusionneTirets, if_neg ha]
      refine List.chain'_cons'.mpr ⟨?_, ih false⟩
      intro y hy
      rintro ⟨ha2, -⟩
      exact ha ha2

/-- On input with no two adjacent hyphens, the collapsing stage is the
identity (when the flag is set, the input may not start with a hyphen). -/
theorem fusionneTirets_id :
    ∀ l : List Char, l.Chain' pasDeuxTirets →
      ∀ b : Bool, (b = true → ∀ c, l.head? = some c → c ≠ '-') →
        fusionneTirets b l = l := by
  intro l
  induction l with
  | nil => intro h b hb; rfl
  | cons a as ih =>
    intro h b hb
    obtain ⟨h1, h2⟩ := List.chain'_cons'.mp h
    by_cases ha : a = '-'
    · have hbf : b = false := by
        rcases b with _ | _
        · rfl
        · exact absurd ha (hb rfl a rfl)
      subst hbf
      simp only [fusionneTirets, if_pos ha, Bool.false_eq_true, if_false]
      rw [ha]
      rw [ih h2 true fun _ c hc hcd => h1 c hc ⟨ha, hcd⟩]
    · simp only [fusionneTirets, if_neg ha]
      rw [ih h2 false (by simp)]

/-- The last element of a `dropWhile` result is the last element of the
input. -/
theorem getLast?_dropWhile {p : Char → Bool} (l : List Char) (c : Char)
    (h : (l.dropWhile p).getLast? = some c) : l.getLast? = some c := by
  obtain ⟨t, ht⟩ := List.dropWhile_suffix (l := l) p
  rw [← ht, List.getLast?_append, h]
  rfl

/-- The trimmed slug neither starts nor ends with a hyphen. -/
theorem bords_rogneTirets (l : List Char) :
    (∀ c, (rogneTirets l).head? = some c → c ≠ '-') ∧
      (∀ c, (rogneTirets l).getLast? = some c → c ≠ '-') := by
  unfold rogneTirets
  constructor
  · intro c hc
    rw [List.head?_reverse] at hc
    have h2 := getLast?_dropWhile _ c hc
    rw [List.getLast?_reverse] at h2
    have h3 := head?_dropWhile _ c h2
    simpa using h3
  · intro c hc
    rw [List.getLast?_reverse] at hc
    have h3 := head?_dropWhile _ c hc
    simpa using h3

/-- Trimming keeps the no-double-hyphen invariant. -/
theorem chain'_rogneTirets (l : List Char) (h : l.Chain' pasDeuxTirets) :
    (rogneTirets l).Chain' pasDeuxTirets := by
  have hsym : ∀ m : List Char, m.Chain' pasDeuxTirets →
      m.reverse.Chain' pasDeuxTirets := by
    intro m hm
    rw [List.chain'_reverse]
    exact hm.imp fun a b hab => fun ⟨x, y⟩ => hab ⟨y, x⟩
  have hdrop : ∀ (p : Char → Bool) (m : List Char), m.Chain' pasDeuxTirets →
      (m.dropWhile p).Chain' pasDeuxTirets := by
    intro p m hm
    obtain ⟨t, ht⟩ := List.dropWhile_suffix (l := m) p
    rw [← ht] at hm
    exact (List.chain'_append.mp hm).2.1
  unfold rogneTirets
  exact hsym _ (hdrop _ _ (hsym _ (hdrop _ _ h)))

/-- Trimming is the identity when neither end is a hyphen. -/
theorem rogneTirets_id (l : List Char)
    (h1 : ∀ c, l.head? = some c → c ≠ '-')
    (h2 : ∀ c, l.getLast? = some c → c ≠ '-') : rogneTirets l = l := by
  unfold rogneTirets
  have e1 : l.dropWhile (· = '-') = l := by
    cases l with
    | nil => rfl
    | cons a as =>
      exact List.dropWhile_cons_of_neg (by simpa using h1 a rfl)
  rw [e1]
  have e2 : l.reverse.dropWhile (· = '-') = l.reverse := by
    cases hr : l.reverse with
    | nil => rfl
    | cons b bs =>
      have hb : l.getLast? = some b := by
        rw [← List.head?_reverse, hr]; rfl
      exact List.dropWhile_cons_of_neg (by simpa using h2 b hb)
  rw [e2, List.reverse_reverse]

/-- The invariants the slug pipeline guarantees of its output: every
character comes from the input or is a hyphen, is not whitespace, not an
underscore, and satisfies the keep predicate; no two adjacent hyphens; no
hyphen at either end. -/
theorem slugChars_proprietes (l : List Char) :
    (∀ c ∈ slugChars l,
        (c ∈ l ∨ c = '-') ∧ estEspacePy c = false ∧ c ≠ '_' ∧
          (estCarMot c || c == '-') = true) ∧
      (slugChars l).Chain' pasDeuxTirets ∧
      (∀ c, (slugChars l).head? = some c → c ≠ '-') ∧
      (∀ c, (slugChars l).getLast? = some c → c ≠ '-') := by
  refine ⟨?_, chain'_rogneTirets _ (chain'_fusionneTirets false _),
    (bords_rogneTirets _).1, (bords_rogneTirets _).2⟩
  intro c hc
  have hc1 := mem_fusionneTirets false _ (mem_rogneTirets _ hc)
  obtain ⟨hc2, hpred⟩ := mem_gardeMots _ hc1
  rcases mem_tiretsUnifies _ hc2 with ⟨hc3, hunder⟩ | rfl
  · rcases mem_espacesEnTirets false _ hc3 with ⟨hmem, hws⟩ | rfl
    · exact ⟨Or.inl hmem, hws, hunder, hpred⟩
    · exact ⟨Or.inr rfl, by decide, by decide, hpred⟩
  · exact ⟨Or.inr rfl, by decide, by decide, hpred⟩

/-- The slug pipeline is idempotent at the character level. -/
theorem slugChars_slugChars (l : List Char) :
    slugChars (slugChars l) = slugChars l := by
  obtain ⟨hm, hch, hh, hl⟩ := slugChars_proprietes l
  rw [show slugChars (slugChars l) =
      rogneTirets (fusionneTirets false (gardeMots (tiretsUnifies
        (espacesEnTirets false (slugChars l))))) from rfl]
  rw [espacesEnTirets_id _ (fun c hc => (hm c hc).2.1) false,
    tiretsUnifies_id _ (fun c hc => (hm c hc).2.2.1),
    gardeMots_id _ (fun c hc => (hm c hc).2.2.2),
    fusionneTirets_id _ hch false (by simp),
    rogneTirets_id _ hh hl]

/-- A slug computed from lowercased input is fixed by lowercasing. -/
theorem map_toLower_slugChars (x : List Char) :
    (slugChars (x.map Char.toLower)).map Char.toLower =
      slugChars (x.map Char.toLower) := by
  obtain ⟨hm, -, -, -⟩ := slugChars_proprietes (x.map Char.toLower)
  rw [List.map_congr_left, List.map_id]
  intro c hc
  rcases (hm c hc).1 with h | rfl
  · obtain ⟨c0, -, rfl⟩ := List.mem_map.mp h
    exact toLower_toLower c0
  · exact toLower_tiret

/-- On accent-free input (`unidecode` the identity), the slug step of the
normalizer is idempotent. -/
theorem slugifie_idempotente (x : String) :
    slugifie id (slugifie id x) = slugifie id x := by
  unfold slugifie pyLower
  simp only [id_eq]
  rw [map_toLower_slugChars, slugChars_slugChars]

/-- C8 (counterexample): with the synonym table `{"a b": ["c"]}` — a
canonical key that is not a fixed point of the slug step — the normalizer
is not idempotent on accent-free input: `normalize("c") = "a b"` but
`normalize("a b") = "a-b"`. -/
theorem c8_contre_exemple :
    ¬ standardize_label id (standardize_label id "c" [("a b", ["c"])])
        [("a b", ["c"])] =
      standardize_label id "c" [("a b", ["c"])] := by
  decide

/-- C8 (amended): on accent-free input (`unidecode` the identity), the
normalizer is idempotent provided every canonical key of the synonym table
is itself a fixed point of the normalizer (in particular for the empty
table); without that proviso the counterexample above applies. -/
theorem c8_normalisation_idempotente (table : List (String × List String))
    (h : ∀ p ∈ table, standardize_label id p.1 table = p.1) (x : String) :
    standardize_label id (standardize_label id x table) table =
      standardize_label id x table := by
  rcases hf : table.find? (fun cs =>
      cs.2.contains (slugifie id x) || slugifie id x == cs.1) with _ | cs
  · have hx : standardize_label id x table = slugifie id x := by
      unfold standardize_label
      rw [hf]
    rw [hx]
    unfold standardize_label
    rw [slugifie_idempotente, hf]
  · have hx : standardize_label id x table = cs.1 := by
      unfold standardize_label
      rw [hf]
    rw [hx]
    exact h cs (List.mem_of_find?_eq_some hf)

/-- C8 at a concrete input: a table whose canonical key is a fixed point,
and the query `Gs!`, which normalizes to the canonical `groupe-sanguin`
in one step and stays there. -/
theorem c8_normalisation_idempotente_witness :
    (∀ p ∈ [("groupe-sanguin", ["gs"])],
        standardize_label id p.1 [("groupe-sanguin", ["gs"])] = p.1) ∧
      standardize_label id
          (standardize_label id "Gs!" [("groupe-sanguin", ["gs"])])
          [("groupe-sanguin", ["gs"])] =
        standardize_label id "Gs!" [("groupe-sanguin", ["gs"])] :=
  ⟨by decide,
    c8_normalisation_idempotente [("groupe-sanguin", ["gs"])] (by decide) "Gs!"⟩
